import Mathlib

/-!
Shallow embedding of the PKCE OAuth proxy core (`src/pkcehandler.ts`) of the
Reflect.app local MCP server.

Modelling conventions:
* A JavaScript `Date` is represented by its epoch timestamp in milliseconds
  (`Int`); `new Date()` at a call site becomes an explicit `now : Int`
  parameter.  `Date` comparisons (`<`, `>`) compare these timestamps.
* A JavaScript `Map<string, V>` is an insertion-ordered association list
  `List (String × V)` with the usual `get` / `set` / `delete` operations
  (`mapGet`, `mapSet`, `mapDelete`).  Iteration order is list order, as in JS.
* `crypto.randomBytes` / `generateId()` results are explicit parameters
  (`freshId`, `proxyToken`, `randomBytes`): the functions are modelled as
  deterministic in the entropy they consume.
* Disk I/O is made explicit: `saveTokensToDisk` returns the serialized
  snapshot, `loadTokensFromDisk` takes it as input, and each stateful
  operation returns the number of `saveTokensToDisk` calls it performs
  (its `writes` component).
* `throw new OAuthProxyError(...)` becomes `Except.error` of an
  `OAuthProxyError` value; HTTP `Response` objects of `handleCallback`
  become the `CallbackResponse` inductive.
* The upstream `fetch` in `handleCallback` is an oracle parameter
  `upstream : Except String UpstreamTokenResponse` (error body, or the
  parsed JSON on a 2xx response).
-/

namespace PKCEProxy

/-- One pending authorize→callback flow (`PKCETransaction` in the source).
`createdAt` / `expiresAt` are epoch milliseconds. -/
structure PKCETransaction where
  codeVerifier : String
  codeChallenge : String
  clientCallbackUrl : String
  clientId : String
  clientState : String
  scope : List String
  createdAt : Int
  expiresAt : Int
deriving DecidableEq, Repr

/-- A token record (`TokenData` in the source): upstream access token,
optional upstream refresh token, expiry in epoch milliseconds. -/
structure TokenData where
  accessToken : String
  refreshToken : Option String
  expiresAt : Int
deriving DecidableEq, Repr

/-- Serialized form written to disk (`SerializedTokenData` in the source).
The source stores `expiresAt` as an ISO-8601 string via `Date.toISOString`
and reads it back with `new Date(string)`; that encoding is a lossless
bijection on millisecond timestamps, so the field is modelled by the
timestamp the string denotes. -/
structure SerializedTokenData where
  accessToken : String
  refreshToken : Option String
  expiresAt : Int
deriving DecidableEq, Repr

/-- A thrown `OAuthProxyError(error, description, status)`. -/
structure OAuthProxyError where
  error : String
  description : String
  status : Nat
deriving DecidableEq, Repr

abbrev TokenStore := List (String × TokenData)
abbrev TransactionStore := List (String × PKCETransaction)
abbrev SerializedStore := List (String × SerializedTokenData)

/-- `Map.prototype.get`. -/
def mapGet {α : Type} (m : List (String × α)) (k : String) : Option α :=
  (m.find? (fun p => p.1 == k)).map Prod.snd

/-- `Map.prototype.set`: update in place if the key is present, else append. -/
def mapSet {α : Type} (m : List (String × α)) (k : String) (v : α) :
    List (String × α) :=
  if m.any (fun p => p.1 == k) then
    m.map (fun p => if p.1 == k then (k, v) else p)
  else
    m ++ [(k, v)]

/-- `Map.prototype.delete`. -/
def mapDelete {α : Type} (m : List (String × α)) (k : String) :
    List (String × α) :=
  m.filter (fun p => p.1 != k)

theorem mapGet_nil {α : Type} (k : String) : mapGet ([] : List (String × α)) k = none := rfl

theorem mapGet_cons {α : Type} (p : String × α) (m : List (String × α)) (k : String) :
    mapGet (p :: m) k = if p.1 = k then some p.2 else mapGet m k := by
  by_cases h : p.1 = k <;> simp [mapGet, List.find?_cons, h]

theorem mapGet_mapDelete_self {α : Type} (m : List (String × α)) (k : String) :
    mapGet (mapDelete m k) k = none := by
  induction m with
  | nil => rfl
  | cons p m ih =>
    by_cases h : p.1 = k
    · simpa [mapDelete, List.filter_cons, h] using ih
    · simpa [mapDelete, List.filter_cons, h, mapGet_cons] using ih

theorem mapGet_append {α : Type} (m l : List (String × α)) (k : String) :
    mapGet (m ++ l) k = ((mapGet m k).map some).getD (mapGet l k) := by
  induction m with
  | nil => simp [mapGet]
  | cons p m ih =>
    by_cases h : p.1 = k
    · simp [List.cons_append, mapGet_cons, h]
    · simpa [List.cons_append, mapGet_cons, h] using ih

theorem mapGet_map_subst_self {α : Type} (m : List (String × α)) (k : String) (v : α)
    (hany : m.any (fun p => p.1 == k)) :
    mapGet (m.map (fun p => if p.1 = k then (k, v) else p)) k = some v := by
  induction m with
  | nil => simp at hany
  | cons p m ih =>
    by_cases h : p.1 = k
    · simp [mapGet_cons, h]
    · have hmem : m.any (fun p => p.1 == k) := by
        simpa [List.any_cons, h] using hany
      simpa [mapGet_cons, h] using ih hmem

theorem mapGet_map_subst_ne {α : Type} (m : List (String × α)) (k k' : String) (v : α)
    (hne : k' ≠ k) :
    mapGet (m.map (fun p => if p.1 = k then (k, v) else p)) k' = mapGet m k' := by
  induction m with
  | nil => rfl
  | cons p m ih =>
    by_cases h : p.1 = k
    · have hp : ¬ p.1 = k' := by
        rw [h]
        exact fun he => hne he.symm
      have hk : ¬ k = k' := fun he => hne he.symm
      simpa [mapGet_cons, h, hp, hk] using ih
    · by_cases hp : p.1 = k'
      · simp [mapGet_cons, h, hp, hne]
      · simpa [mapGet_cons, h, hp] using ih

theorem mapGet_eq_none_of_not_any {α : Type} (m : List (String × α)) (k : String)
    (hany : ¬ m.any (fun p => p.1 == k)) : mapGet m k = none := by
  induction m with
  | nil => rfl
  | cons p m ih =>
    have h : ¬ p.1 = k := fun he => hany (by simp [List.any_cons, he])
    have hrest : ¬ m.any (fun p => p.1 == k) := fun hm =>
      hany (by simp [List.any_cons, hm])
    simpa [mapGet_cons, h] using ih hrest

theorem mapGet_mapSet_self {α : Type} (m : List (String × α)) (k : String) (v : α) :
    mapGet (mapSet m k v) k = some v := by
  unfold mapSet
  by_cases hany : m.any (fun p => p.1 == k)
  · simpa [hany] using mapGet_map_subst_self m k v hany
  · have hnone : mapGet m k = none := mapGet_eq_none_of_not_any m k hany
    simp [hany, mapGet_append, hnone, mapGet_cons]

theorem mapGet_mapSet_ne {α : Type} (m : List (String × α)) (k k' : String) (v : α)
    (hne : k' ≠ k) : mapGet (mapSet m k v) k' = mapGet m k' := by
  unfold mapSet
  by_cases hany : m.any (fun p => p.1 == k)
  · simpa [hany] using mapGet_map_subst_ne m k k' v hne
  · have hk : ¬ k = k' := fun he => hne he.symm
    simp [hany, mapGet_append, mapGet_cons, hk, mapGet_nil]
    cases mapGet m k' <;> rfl

theorem mapSet_eq_append {α : Type} (m : List (String × α)) (k : String) (v : α)
    (h : ∀ p ∈ m, p.1 ≠ k) : mapSet m k v = m ++ [(k, v)] := by
  unfold mapSet
  have hany : ¬ m.any (fun p => p.1 == k) := by
    simp only [List.any_eq_true, beq_iff_eq, not_exists]
    rintro p ⟨hp, he⟩
    exact h p hp he
  simp [hany]

/-! Operations translated from `src/pkcehandler.ts`. -/

/-- The base64url alphabet (RFC 4648 §5), the character set produced by
Node's `Buffer.toString("base64url")`. -/
def b64UrlAlphabet : List Char :=
  "ABCDEFGHIJKLMNOPQRSTUVWXYZabcdefghijklmnopqrstuvwxyz0123456789-_".toList

/-- One output character of base64url: the alphabet entry for a 6-bit group. -/
def sextet (n : Nat) : Char :=
  b64UrlAlphabet.getD (n % 64) 'A'

/-- Unpadded base64url encoding of a byte list, as produced by Node's
`Buffer.toString("base64url")`: three input bytes become four sextets; a
2-byte tail becomes three characters and a 1-byte tail two characters. -/
def base64urlEncode : List Nat → List Char
  | [] => []
  | [b1] => [sextet (b1 / 4), sextet (b1 % 4 * 16)]
  | [b1, b2] => [sextet (b1 / 4), sextet (b1 % 4 * 16 + b2 / 16), sextet (b2 % 16 * 4)]
  | b1 :: b2 :: b3 :: rest =>
    sextet (b1 / 4) :: sextet (b1 % 4 * 16 + b2 / 16) ::
    sextet (b2 % 16 * 4 + b3 / 64) :: sextet (b3 % 64) :: base64urlEncode rest

/-- `generatePKCE`: the verifier is the base64url encoding of the 32 random
bytes drawn (`crypto.randomBytes(32)`, passed here as `randomBytes`), and the
challenge is the base64url encoding of the SHA-256 digest of the verifier.
SHA-256 itself is modelled as an abstract byte-valued function `sha256` on
strings; nothing the claims state depends on the digest values. -/
def generatePKCE (sha256 : String → List Nat) (randomBytes : List Nat) :
    String × String :=
  let verifier : String := ⟨base64urlEncode randomBytes⟩
  let challenge : String := ⟨base64urlEncode (sha256 verifier)⟩
  (verifier, challenge)

/-- The response object of a successful `exchangeAuthorizationCode` call.
The source never includes a `refresh_token` field in this object. -/
structure TokenResponse where
  access_token : String
  token_type : String
  expires_in : Int
deriving DecidableEq, Repr

/-- A JavaScript string is falsy exactly when it is empty; an absent query
parameter (`null`) is also falsy.  This models `!params.code` / `!state`. -/
def strFalsy : Option String → Bool
  | none => true
  | some s => s == ""

/-- `exchangeAuthorizationCode` (the `/oauth/token` authorization_code grant).
`now` is the clock at the call, `freshId` the value `generateId()` returns for
the new access-token key, `tokens` the token store; `code` is `params.code`
(a plain string in the source, so only the empty string is falsy).  Returns
the thrown `OAuthProxyError` or the token response together with the updated
store and the number of `saveTokensToDisk` calls made. -/
def exchangeAuthorizationCode (now : Int) (freshId : String)
    (tokens : TokenStore) (code : String) :
    Except OAuthProxyError (TokenResponse × TokenStore × Nat) :=
  if code = "" then
    .error ⟨"invalid_request", "Missing authorization code", 400⟩
  else
    match mapGet tokens code with
    | none => .error ⟨"invalid_grant", "Invalid or expired authorization code", 400⟩
    | some tokenData =>
      let tokens1 := mapDelete tokens code
      let tokens2 := mapSet tokens1 freshId tokenData
      let expiresIn : Int := (tokenData.expiresAt - now).fdiv 1000
      .ok ({ access_token := freshId, token_type := "Bearer",
             expires_in := if expiresIn > 0 then expiresIn else 3600 },
           tokens2, 1)

/-- `exchangeRefreshToken`: unconditionally throws `invalid_grant`, whatever
refresh token is supplied. -/
def exchangeRefreshToken (refresh_token : String) :
    Except OAuthProxyError TokenResponse :=
  .error ⟨"invalid_grant", "Refresh tokens are not supported. Please re-authenticate.", 400⟩

/-- The parsed JSON body of a 2xx upstream token response. -/
structure UpstreamTokenResponse where
  access_token : String
  refresh_token : Option String
  expires_in : Option Int
deriving DecidableEq, Repr

/-- The redirect issued back to the original client on callback success. -/
structure ClientRedirect where
  base : String
  code : String
  state : String
deriving DecidableEq, Repr

/-- The `Response` values `handleCallback` can produce: a 400 JSON error
(`token_exchange_failed` carries the upstream body as `details`) or a 302
redirect to the client callback URL with `code` and `state` parameters. -/
inductive CallbackResponse where
  | err (error : String) (details : Option String) (status : Nat)
  | redirect (r : ClientRedirect)
deriving DecidableEq, Repr

/-- `handleCallback` (the `/oauth/callback` handler).  `code` and `state` are
the query parameters (absent ↦ `none`); `upstream` is the outcome of the
`fetch` to the upstream token endpoint (`Except.error body` when
`!tokenResponse.ok`, with the response text); `proxyToken` is the value
`generateId()` returns for the minted proxy code.  Returns the response, the
updated transaction and token stores, and the number of `saveTokensToDisk`
calls made. -/
def handleCallback (now : Int) (code state : Option String)
    (upstream : Except String UpstreamTokenResponse) (proxyToken : String)
    (transactions : TransactionStore) (tokens : TokenStore) :
    CallbackResponse × TransactionStore × TokenStore × Nat :=
  if strFalsy state then
    (.err "missing_state" none 400, transactions, tokens, 0)
  else if strFalsy code then
    (.err "missing_code" none 400, transactions, tokens, 0)
  else
    let st := state.getD ""
    match mapGet transactions st with
    | none => (.err "invalid_state" none 400, transactions, tokens, 0)
    | some transaction =>
      if transaction.expiresAt < now then
        (.err "transaction_expired" none 400, mapDelete transactions st, tokens, 0)
      else
        match upstream with
        | .error body =>
          (.err "token_exchange_failed" (some body) 400, transactions, tokens, 0)
        | .ok utk =>
          let lifetime : Int := match utk.expires_in with
            | none => 3600
            | some e => if e = 0 then 3600 else e
          let tokens2 := mapSet tokens proxyToken
            { accessToken := utk.access_token,
              refreshToken := utk.refresh_token,
              expiresAt := now + lifetime * 1000 }
          (.redirect { base := transaction.clientCallbackUrl,
                       code := proxyToken,
                       state := transaction.clientState },
           mapDelete transactions st, tokens2, 1)

/-- `getFirstValidToken`: scans the token store in iteration order and
returns the first record whose expiry is strictly in the future, or `null`.
It touches neither store and never saves, so the modelled store is returned
unchanged with a write count of 0. -/
def getFirstValidToken (now : Int) (tokens : TokenStore) :
    Option TokenData × TokenStore × Nat :=
  ((tokens.find? (fun p => now < p.2.expiresAt)).map Prod.snd, tokens, 0)

/-- One pass of the `startCleanup` interval body (the Sweeper): deletes every
transaction and every token whose `expiresAt` is strictly before `now`
(deleting the entry currently visited during JS `Map` iteration is
well-defined and equivalent to a filter), and calls `saveTokensToDisk` once
exactly when some token was deleted. -/
def sweep (now : Int) (transactions : TransactionStore) (tokens : TokenStore) :
    TransactionStore × TokenStore × Nat :=
  let transactions2 := transactions.filter (fun p => ¬ p.2.expiresAt < now)
  let tokensChanged := tokens.any (fun p => p.2.expiresAt < now)
  let tokens2 := tokens.filter (fun p => ¬ p.2.expiresAt < now)
  (transactions2, tokens2, if tokensChanged then 1 else 0)

/-- `saveTokensToDisk`: serializes every entry of the token store, in
iteration order, into a flat record (the `toStore` object; property
assignment on a JS object is last-writer-wins, i.e. `mapSet`). -/
def saveTokensToDisk (tokens : TokenStore) : SerializedStore :=
  tokens.foldl
    (fun acc p => mapSet acc p.1 ⟨p.2.accessToken, p.2.refreshToken, p.2.expiresAt⟩)
    []

/-- `loadTokensFromDisk`: rebuilds the in-memory store from a parsed
snapshot, keeping only entries whose expiry is strictly after `now`
(`expiresAt > new Date()`). -/
def loadTokensFromDisk (now : Int) (stored : SerializedStore) : TokenStore :=
  stored.foldl
    (fun acc p =>
      if now < p.2.expiresAt then
        mapSet acc p.1 ⟨p.2.accessToken, p.2.refreshToken, p.2.expiresAt⟩
      else acc)
    []

/-! Claim theorems. -/

/-- C8: every Refresh-grant call (`exchangeRefreshToken`), for any supplied
refresh_token value including the empty string, fails with the
`invalid_grant` error and never returns an access token. -/
theorem refresh_grant_always_invalid_grant (rt : String) :
    exchangeRefreshToken rt =
      .error ⟨"invalid_grant",
              "Refresh tokens are not supported. Please re-authenticate.", 400⟩ ∧
    ∀ resp, exchangeRefreshToken rt ≠ .ok resp := by
  refine ⟨rfl, ?_⟩
  intro resp h
  simp [exchangeRefreshToken] at h

/-- C9: a Callback request missing both the `code` and the `state` query
parameters returns `missing_state` (the state check precedes the code
check), and neither store is mutated (and nothing is persisted). -/
theorem callback_missing_both_params (now : Int)
    (upstream : Except String UpstreamTokenResponse) (proxyToken : String)
    (transactions : TransactionStore) (tokens : TokenStore) :
    handleCallback now none none upstream proxyToken transactions tokens =
      (.err "missing_state" none 400, transactions, tokens, 0) := rfl

/-- C4: one Sweeper pass removes exactly the transactions and token records
whose `expiresAt` is before the sweep time, keeps every other entry
unchanged and in order (the survivors form the sublist of unexpired
entries), and performs exactly one persistence write if and only if at least
one token record (not merely a transaction) was removed. -/
theorem sweep_spec (now : Int) (transactions : TransactionStore) (tokens : TokenStore) :
    (∀ p : String × PKCETransaction,
        p ∈ (sweep now transactions tokens).1 ↔ p ∈ transactions ∧ ¬ p.2.expiresAt < now) ∧
    (sweep now transactions tokens).1.Sublist transactions ∧
    (∀ q : String × TokenData,
        q ∈ (sweep now transactions tokens).2.1 ↔ q ∈ tokens ∧ ¬ q.2.expiresAt < now) ∧
    (sweep now transactions tokens).2.1.Sublist tokens ∧
    ((sweep now transactions tokens).2.2 = 1 ↔ ∃ q ∈ tokens, q.2.expiresAt < now) ∧
    ((sweep now transactions tokens).2.2 = 0 ↔ ¬ ∃ q ∈ tokens, q.2.expiresAt < now) := by
  refine ⟨?_, ?_, ?_, ?_, ?_, ?_⟩
  · intro p
    simp [sweep, List.mem_filter]
  · exact List.filter_sublist _
  · intro q
    simp [sweep, List.mem_filter]
  · exact List.filter_sublist _
  · by_cases h : tokens.any (fun p => decide (p.2.expiresAt < now))
    · simp only [sweep, h, if_true]
      simpa [List.any_eq_true] using h
    · simp only [sweep, h, if_false]
      constructor
      · intro h1
        exact absurd h1 (by decide)
      · intro hex
        exact absurd (by simpa [List.any_eq_true] using hex) h
  · by_cases h : tokens.any (fun p => decide (p.2.expiresAt < now))
    · simp only [sweep, h, if_true]
      constructor
      · intro h1
        exact absurd h1 (by decide)
      · intro hnex
        exact absurd (by simpa [List.any_eq_true] using h) hnex
    · simp only [sweep, h, if_false]
      constructor
      · intro _
        intro hex
        exact absurd (by simpa [List.any_eq_true] using hex) h
      · intro _
        rfl

/-- C10: `getFirstValidToken` returns some record whose `expiresAt` is
strictly after `now` exactly when the store holds such an entry (and the
returned record is one of them), returns `none` otherwise, and leaves the
store unchanged with no persistence write. -/
theorem getFirstValidToken_spec (now : Int) (tokens : TokenStore) :
    ((getFirstValidToken now tokens).1.isSome ↔ ∃ q ∈ tokens, now < q.2.expiresAt) ∧
    (∀ t, (getFirstValidToken now tokens).1 = some t →
        now < t.expiresAt ∧ ∃ k, (k, t) ∈ tokens) ∧
    (getFirstValidToken now tokens).2.1 = tokens ∧
    (getFirstValidToken now tokens).2.2 = 0 := by
  refine ⟨?_, ?_, rfl, rfl⟩
  · simp [getFirstValidToken, List.find?_isSome]
  · intro t ht
    simp only [getFirstValidToken, Option.map_eq_some'] at ht
    obtain ⟨q, hq, hsnd⟩ := ht
    have hpred := List.find?_some hq
    have hmem := List.mem_of_find?_eq_some hq
    subst hsnd
    constructor
    · simpa using hpred
    · exact ⟨q.1, hmem⟩

theorem fdiv_thousand_nonpos {a : Int} (h : a ≤ 0) : a.fdiv 1000 ≤ 0 := by
  rw [Int.fdiv_eq_ediv a (by norm_num)]
  calc a / 1000 ≤ 0 / 1000 := Int.ediv_le_ediv (by norm_num) h
  _ = 0 := by simp

/-- C7: every successful Token-exchange call returns
`expires_in = floor((record.expiresAt - now)/1000)` when that value is
positive, returns the positive default 3600 when the stored expiry has
already elapsed, and never returns a zero or negative `expires_in`. -/
theorem token_exchange_expires_in_spec (now : Int) (freshId : String)
    (tokens : TokenStore) (code : String) (record : TokenData)
    (hc : code ≠ "") (hget : mapGet tokens code = some record) :
    ∃ resp tokens2,
      exchangeAuthorizationCode now freshId tokens code = .ok (resp, tokens2, 1) ∧
      (0 < (record.expiresAt - now).fdiv 1000 →
        resp.expires_in = (record.expiresAt - now).fdiv 1000) ∧
      (record.expiresAt ≤ now → resp.expires_in = 3600) ∧
      0 < resp.expires_in := by
  refine ⟨⟨freshId, "Bearer",
      if (record.expiresAt - now).fdiv 1000 > 0 then (record.expiresAt - now).fdiv 1000
      else 3600⟩,
    mapSet (mapDelete tokens code) freshId record, ?_, ?_, ?_, ?_⟩
  · simp [exchangeAuthorizationCode, hc, hget]
  · intro hpos
    simp [hpos]
  · intro helapsed
    have hnp : (record.expiresAt - now).fdiv 1000 ≤ 0 :=
      fdiv_thousand_nonpos (by omega)
    simp [not_lt.mpr hnp]
  · by_cases hpos : 0 < (record.expiresAt - now).fdiv 1000
    · simpa [hpos] using hpos
    · have h36 : (0 : Int) < 3600 := by norm_num
      simpa [hpos] using h36

/-- C7 witness: a concrete successful exchange.  With the record expiring
5000 ms after a call at time 0, `expires_in` is 5 and positive. -/
theorem token_exchange_expires_in_spec_witness :
    ∃ resp tokens2,
      exchangeAuthorizationCode 0 "f" [("c", TokenData.mk "a" none 5000)] "c" =
        .ok (resp, tokens2, 1) ∧
      (0 < ((TokenData.mk "a" none 5000).expiresAt - 0).fdiv 1000 →
        resp.expires_in = ((TokenData.mk "a" none 5000).expiresAt - 0).fdiv 1000) ∧
      ((TokenData.mk "a" none 5000).expiresAt ≤ 0 → resp.expires_in = 3600) ∧
      0 < resp.expires_in :=
  token_exchange_expires_in_spec 0 "f" [("c", TokenData.mk "a" none 5000)] "c"
    (TokenData.mk "a" none 5000) (by decide) rfl

/-- C2: a minted proxy code is exchangeable exactly once.  For any store
holding an unexpired record under `k`, the first call succeeds, deletes the
entry at `k`, stores the identical record under the freshly generated key
returned as `access_token`, performs one persistence write, and a second
call with `k` (no intervening mint) fails with `invalid_grant`. -/
theorem code_single_use (now : Int) (tokens : TokenStore) (k freshId : String)
    (record : TokenData) (hk : k ≠ "") (hget : mapGet tokens k = some record)
    (hunexp : now < record.expiresAt) (hfresh : freshId ≠ k) :
    ∃ resp,
      exchangeAuthorizationCode now freshId tokens k =
        .ok (resp, mapSet (mapDelete tokens k) freshId record, 1) ∧
      resp.access_token = freshId ∧
      mapGet (mapSet (mapDelete tokens k) freshId record) k = none ∧
      mapGet (mapSet (mapDelete tokens k) freshId record) freshId = some record ∧
      ∀ now2 freshId2,
        exchangeAuthorizationCode now2 freshId2
            (mapSet (mapDelete tokens k) freshId record) k =
          .error ⟨"invalid_grant", "Invalid or expired authorization code", 400⟩ := by
  have hdel : mapGet (mapSet (mapDelete tokens k) freshId record) k = none := by
    rw [mapGet_mapSet_ne _ _ _ _ (Ne.symm hfresh)]
    exact mapGet_mapDelete_self _ _
  refine ⟨⟨freshId, "Bearer",
      if (record.expiresAt - now).fdiv 1000 > 0 then (record.expiresAt - now).fdiv 1000
      else 3600⟩, ?_, rfl, hdel, mapGet_mapSet_self _ _ _, ?_⟩
  · simp [exchangeAuthorizationCode, hk, hget]
  · intro now2 freshId2
    simp [exchangeAuthorizationCode, hk, hdel]

/-- C2 witness: a concrete store with one unexpired record under "c"; the
rotation and the failing second exchange are evaluated on it. -/
theorem code_single_use_witness :
    ∃ resp,
      exchangeAuthorizationCode 0 "f" [("c", TokenData.mk "a" none 5000)] "c" =
        .ok (resp, mapSet (mapDelete [("c", TokenData.mk "a" none 5000)] "c") "f"
              (TokenData.mk "a" none 5000), 1) ∧
      resp.access_token = "f" ∧
      mapGet (mapSet (mapDelete [("c", TokenData.mk "a" none 5000)] "c") "f"
        (TokenData.mk "a" none 5000)) "c" = none ∧
      mapGet (mapSet (mapDelete [("c", TokenData.mk "a" none 5000)] "c") "f"
        (TokenData.mk "a" none 5000)) "f" = some (TokenData.mk "a" none 5000) ∧
      ∀ now2 freshId2,
        exchangeAuthorizationCode now2 freshId2
            (mapSet (mapDelete [("c", TokenData.mk "a" none 5000)] "c") "f"
              (TokenData.mk "a" none 5000)) "c" =
          .error ⟨"invalid_grant", "Invalid or expired authorization code", 400⟩ :=
  code_single_use 0 [("c", TokenData.mk "a" none 5000)] "c" "f" (TokenData.mk "a" none 5000)
    (by decide) rfl (by decide) (by decide)

/-- C3: a Callback whose `state` names a stored transaction with `expiresAt`
in the past deletes that transaction and returns `transaction_expired` (no
persistence write); any later Callback with the same state — the transaction
now absent — returns `invalid_state` and leaves the stores unchanged. -/
theorem callback_expired_transaction (now : Int) (c st : String)
    (upstream : Except String UpstreamTokenResponse) (proxyToken : String)
    (transactions : TransactionStore) (tokens : TokenStore) (tx : PKCETransaction)
    (hc : c ≠ "") (hst : st ≠ "")
    (hget : mapGet transactions st = some tx) (hexp : tx.expiresAt < now) :
    handleCallback now (some c) (some st) upstream proxyToken transactions tokens =
      (.err "transaction_expired" none 400, mapDelete transactions st, tokens, 0) ∧
    ∀ (now2 : Int) (c2 : String) (upstream2 : Except String UpstreamTokenResponse)
      (proxyToken2 : String), c2 ≠ "" →
      handleCallback now2 (some c2) (some st) upstream2 proxyToken2
          (mapDelete transactions st) tokens =
        (.err "invalid_state" none 400, mapDelete transactions st, tokens, 0) := by
  constructor
  · simp only [handleCallback, strFalsy, beq_iff_eq, hst, hc, if_false,
      Option.getD_some, hget, hexp, if_true]
  · intro now2 c2 upstream2 proxyToken2 hc2
    simp only [handleCallback, strFalsy, beq_iff_eq, hst, hc2, if_false,
      Option.getD_some, mapGet_mapDelete_self]

/-- C3 witness: a concrete transaction expired at time 5, observed by a
callback at time 10, then the repeat callback at it. -/
theorem callback_expired_transaction_witness :
    handleCallback 10 (some "u") (some "s") (.error "e") "p"
        [("s", PKCETransaction.mk "v" "ch" "cb" "ci" "cs" [] 0 5)] [] =
      (.err "transaction_expired" none 400,
       mapDelete [("s", PKCETransaction.mk "v" "ch" "cb" "ci" "cs" [] 0 5)] "s", [], 0) ∧
    ∀ (now2 : Int) (c2 : String) (upstream2 : Except String UpstreamTokenResponse)
      (proxyToken2 : String), c2 ≠ "" →
      handleCallback now2 (some c2) (some "s") upstream2 proxyToken2
          (mapDelete [("s", PKCETransaction.mk "v" "ch" "cb" "ci" "cs" [] 0 5)] "s") [] =
        (.err "invalid_state" none 400,
         mapDelete [("s", PKCETransaction.mk "v" "ch" "cb" "ci" "cs" [] 0 5)] "s", [], 0) :=
  callback_expired_transaction 10 "u" "s" (.error "e") "p"
    [("s", PKCETransaction.mk "v" "ch" "cb" "ci" "cs" [] 0 5)] []
    (PKCETransaction.mk "v" "ch" "cb" "ci" "cs" [] 0 5)
    (by decide) (by decide) rfl (by decide)

/-- C1 counterexample: a code that is still present in the Token Store but
whose record expired at time 0 is exchanged successfully at time 1000 — the
call does not fail with `invalid_grant`; the read path never re-checks
expiry, and `expires_in` is clamped to 3600. -/
theorem expired_code_exchange_succeeds :
    exchangeAuthorizationCode 1000 "f" [("c", TokenData.mk "at" none 0)] "c" =
      .ok ({ access_token := "f", token_type := "Bearer", expires_in := 3600 },
           [("f", TokenData.mk "at" none 0)], 1) := by
  rfl

/-- C1 amended: `exchangeAuthorizationCode` fails with `invalid_grant` only
when the code is absent from the Token Store; a code still present is
exchanged even when its record's `expiresAt` is in the past (expiry is not
re-checked at use time — the path relies on the Sweeper having removed the
entry), with `expires_in` clamped to 3600. -/
theorem expired_code_exchange_amended (now : Int) (freshId : String)
    (tokens : TokenStore) (code : String) (record : TokenData)
    (hc : code ≠ "") (hget : mapGet tokens code = some record)
    (hexp : record.expiresAt ≤ now) :
    exchangeAuthorizationCode now freshId tokens code =
      .ok ({ access_token := freshId, token_type := "Bearer", expires_in := 3600 },
           mapSet (mapDelete tokens code) freshId record, 1) ∧
    ∀ k, k ≠ "" → mapGet tokens k = none →
      exchangeAuthorizationCode now freshId tokens k =
        .error ⟨"invalid_grant", "Invalid or expired authorization code", 400⟩ := by
  constructor
  · have hnp : (record.expiresAt - now).fdiv 1000 ≤ 0 :=
      fdiv_thousand_nonpos (by omega)
    simp [exchangeAuthorizationCode, hc, hget, not_lt.mpr hnp]
  · intro k hk hnone
    simp [exchangeAuthorizationCode, hk, hnone]

/-- C1 amended witness: the concrete expired record from the counterexample,
exchanged at time 1000; an absent key "z" yields `invalid_grant`. -/
theorem expired_code_exchange_amended_witness :
    exchangeAuthorizationCode 1000 "f" [("c", TokenData.mk "at" none 0)] "c" =
      .ok ({ access_token := "f", token_type := "Bearer", expires_in := 3600 },
           mapSet (mapDelete [("c", TokenData.mk "at" none 0)] "c") "f"
             (TokenData.mk "at" none 0), 1) ∧
    ∀ k, k ≠ "" → mapGet [("c", TokenData.mk "at" none 0)] k = none →
      exchangeAuthorizationCode 1000 "f" [("c", TokenData.mk "at" none 0)] k =
        .error ⟨"invalid_grant", "Invalid or expired authorization code", 400⟩ :=
  expired_code_exchange_amended 1000 "f" [("c", TokenData.mk "at" none 0)] "c"
    (TokenData.mk "at" none 0) (by decide) rfl (by decide)

theorem b64UrlAlphabet_length : b64UrlAlphabet.length = 64 := rfl

theorem sextet_mem (n : Nat) : sextet n ∈ b64UrlAlphabet := by
  have hlt : n % 64 < b64UrlAlphabet.length := by
    rw [b64UrlAlphabet_length]
    exact Nat.mod_lt n (by norm_num)
  unfold sextet
  rw [List.getD_eq_getElem _ _ hlt]
  exact List.getElem_mem hlt

theorem base64urlEncode_mem_alphabet :
    ∀ (l : List Nat), ∀ c ∈ base64urlEncode l, c ∈ b64UrlAlphabet
  | [], c, hc => by simp [base64urlEncode] at hc
  | [b1], c, hc => by
    rcases (by simpa [base64urlEncode] using hc : c = _ ∨ c = _) with h | h <;>
      (subst h; exact sextet_mem _)
  | [b1, b2], c, hc => by
    rcases (by simpa [base64urlEncode] using hc : c = _ ∨ c = _ ∨ c = _) with h | h | h <;>
      (subst h; exact sextet_mem _)
  | b1 :: b2 :: b3 :: rest, c, hc => by
    rcases (by simpa [base64urlEncode] using hc :
        c = _ ∨ c = _ ∨ c = _ ∨ c = _ ∨ c ∈ base64urlEncode rest) with h | h | h | h | h
    · subst h; exact sextet_mem _
    · subst h; exact sextet_mem _
    · subst h; exact sextet_mem _
    · subst h; exact sextet_mem _
    · exact base64urlEncode_mem_alphabet rest c h

theorem base64urlEncode_length :
    ∀ l : List Nat, (base64urlEncode l).length =
      4 * (l.length / 3) +
        (if l.length % 3 = 0 then 0 else if l.length % 3 = 1 then 2 else 3)
  | [] => by simp [base64urlEncode]
  | [b1] => by simp [base64urlEncode]
  | [b1, b2] => by simp [base64urlEncode]
  | b1 :: b2 :: b3 :: rest => by
    have ih := base64urlEncode_length rest
    simp only [base64urlEncode, List.length_cons, ih]
    split_ifs <;> omega

/-- C6: for every verifier/challenge pair produced by `generatePKCE` (for
any 32-byte entropy draw), the challenge is the base64url encoding of the
SHA-256 digest of the verifier, and the verifier consists only of URL-safe
(base64url-alphabet) characters with length between 43 and 128 inclusive
(it is exactly 43 characters long). -/
theorem generatePKCE_spec (sha256 : String → List Nat) (randomBytes : List Nat)
    (h : randomBytes.length = 32) :
    (generatePKCE sha256 randomBytes).2 =
      ⟨base64urlEncode (sha256 (generatePKCE sha256 randomBytes).1)⟩ ∧
    43 ≤ (generatePKCE sha256 randomBytes).1.length ∧
    (generatePKCE sha256 randomBytes).1.length ≤ 128 ∧
    ∀ c ∈ (generatePKCE sha256 randomBytes).1.data, c ∈ b64UrlAlphabet := by
  have hlen : (generatePKCE sha256 randomBytes).1.length = 43 := by
    show (base64urlEncode randomBytes).length = 43
    rw [base64urlEncode_length, h]
    norm_num
  refine ⟨rfl, by omega, by omega, ?_⟩
  intro c hc
  exact base64urlEncode_mem_alphabet randomBytes c hc

/-- C6 witness: the PKCE pair generated from 32 zero bytes, with the digest
function instantiated to one returning a fixed byte. -/
theorem generatePKCE_spec_witness :
    (generatePKCE (fun s => [7]) (List.replicate 32 0)).2 =
      ⟨base64urlEncode ((fun s => [7])
        ((generatePKCE (fun s => [7]) (List.replicate 32 0)).1))⟩ ∧
    43 ≤ (generatePKCE (fun s => [7]) (List.replicate 32 0)).1.length ∧
    (generatePKCE (fun s => [7]) (List.replicate 32 0)).1.length ≤ 128 ∧
    ∀ c ∈ (generatePKCE (fun s => [7]) (List.replicate 32 0)).1.data,
      c ∈ b64UrlAlphabet :=
  generatePKCE_spec (fun s => [7]) (List.replicate 32 0) (by decide)

theorem foldl_mapSet_closed {α β : Type} (P : String × α → Bool) (g : String × α → β) :
    ∀ (l : List (String × α)) (acc : List (String × β)),
      (l.map Prod.fst).Nodup →
      (∀ k, k ∈ l.map Prod.fst → k ∉ acc.map Prod.fst) →
      l.foldl (fun a p => if P p then mapSet a p.1 (g p) else a) acc =
        acc ++ (l.filter P).map (fun p => (p.1, g p))
  | [], acc, _, _ => by simp
  | p :: l, acc, hnodup, hdisj => by
    have hndtail : (l.map Prod.fst).Nodup := by
      simpa using hnodup.of_cons
    by_cases hp : P p
    · have hset : mapSet acc p.1 (g p) = acc ++ [(p.1, g p)] := by
        apply mapSet_eq_append
        intro q hq he
        exact hdisj p.1 (by simp) (he ▸ List.mem_map_of_mem Prod.fst hq)
      have hdisj2 : ∀ k, k ∈ l.map Prod.fst → k ∉ (acc ++ [(p.1, g p)]).map Prod.fst := by
        intro k hk
        simp only [List.map_append, List.mem_append, List.map_cons, List.map_nil,
          List.mem_cons, List.not_mem_nil, or_false]
        rintro (hka | hkp)
        · exact hdisj k (by simp [hk]) hka
        · have hkne : k ≠ p.1 := by
            have := hnodup
            simp only [List.map_cons, List.nodup_cons] at this
            intro he
            exact this.1 (he ▸ hk)
          exact hkne hkp
      have ih := foldl_mapSet_closed P g l (acc ++ [(p.1, g p)]) hndtail hdisj2
      simp only [List.foldl_cons, hp, if_true, hset, ih, List.filter_cons, List.map_cons,
        List.append_assoc, List.singleton_append]
    · have hdisj2 : ∀ k, k ∈ l.map Prod.fst → k ∉ acc.map Prod.fst := by
        intro k hk
        exact hdisj k (by simp [hk])
      have ih := foldl_mapSet_closed P g l acc hndtail hdisj2
      simpa [List.foldl_cons, hp, List.filter_cons] using ih

/-- Serialization of one record, as `saveTokensToDisk` writes it. -/
def serializeRecord (v : TokenData) : SerializedTokenData :=
  ⟨v.accessToken, v.refreshToken, v.expiresAt⟩

/-- Deserialization of one record, as `loadTokensFromDisk` rebuilds it. -/
def deserializeRecord (v : SerializedTokenData) : TokenData :=
  ⟨v.accessToken, v.refreshToken, v.expiresAt⟩

theorem saveTokensToDisk_eq (tokens : TokenStore)
    (hnodup : (tokens.map Prod.fst).Nodup) :
    saveTokensToDisk tokens = tokens.map (fun p => (p.1, serializeRecord p.2)) := by
  have h := foldl_mapSet_closed (fun _ => true)
    (fun p : String × TokenData => serializeRecord p.2) tokens [] hnodup (by simp)
  simpa [saveTokensToDisk, serializeRecord, List.filter_true] using h

theorem loadTokensFromDisk_eq (now : Int) (stored : SerializedStore)
    (hnodup : (stored.map Prod.fst).Nodup) :
    loadTokensFromDisk now stored =
      (stored.filter (fun p => now < p.2.expiresAt)).map
        (fun p => (p.1, deserializeRecord p.2)) := by
  have h := foldl_mapSet_closed (fun p : String × SerializedTokenData => now < p.2.expiresAt)
    (fun p : String × SerializedTokenData => deserializeRecord p.2) stored [] hnodup (by simp)
  simpa [loadTokensFromDisk, deserializeRecord] using h

/-- C5: persistence round-trips.  For a Token Store (whose keys are unique,
the `Map` invariant), saving and then loading the snapshot yields exactly
the entries that are unexpired at load time; in particular, when every
entry is unexpired at load time the reloaded store is identical — the same
key set with identical `accessToken`, `refreshToken` and `expiresAt` per
key. -/
theorem persistence_roundtrip (now : Int) (tokens : TokenStore)
    (hnodup : (tokens.map Prod.fst).Nodup) :
    loadTokensFromDisk now (saveTokensToDisk tokens) =
      tokens.filter (fun p => now < p.2.expiresAt) ∧
    ((∀ p ∈ tokens, now < p.2.expiresAt) →
      loadTokensFromDisk now (saveTokensToDisk tokens) = tokens) := by
  have hsave := saveTokensToDisk_eq tokens hnodup
  have hkeys : ((saveTokensToDisk tokens).map Prod.fst).Nodup := by
    rw [hsave, List.map_map]
    simpa using hnodup
  have hload := loadTokensFromDisk_eq now (saveTokensToDisk tokens) hkeys
  have hmain : loadTokensFromDisk now (saveTokensToDisk tokens) =
      tokens.filter (fun p => now < p.2.expiresAt) := by
    rw [hload, hsave, List.filter_map, List.map_map]
    have hround : (fun p : String × TokenData =>
        ((p.1, serializeRecord p.2).1, deserializeRecord (p.1, serializeRecord p.2).2)) =
        fun p : String × TokenData => p := by
      funext p
      rfl
    have hpred : ((fun p : String × SerializedTokenData => decide (now < p.2.expiresAt)) ∘
        (fun p : String × TokenData => (p.1, serializeRecord p.2))) =
        fun p : String × TokenData => decide (now < p.2.expiresAt) := rfl
    rw [hpred]
    simp only [Function.comp_def, serializeRecord, deserializeRecord]
    exact (List.map_congr_left (fun q _ => rfl)).trans (List.map_id _)
  refine ⟨hmain, ?_⟩
  intro hall
  rw [hmain]
  rw [List.filter_eq_self]
  intro p hp
  simpa using hall p hp

/-- C5 witness: a two-entry store, one record unexpired at load time 0 and
one already expired; the reload keeps exactly the unexpired entry, and a
fully-unexpired load at time -1 reproduces the store. -/
theorem persistence_roundtrip_witness :
    loadTokensFromDisk 0 (saveTokensToDisk
        [("a", TokenData.mk "x" none 10), ("b", TokenData.mk "y" (some "r") (-5))]) =
      List.filter (fun p => 0 < p.2.expiresAt)
        [("a", TokenData.mk "x" none 10), ("b", TokenData.mk "y" (some "r") (-5))] ∧
    ((∀ p ∈ [("a", TokenData.mk "x" none 10), ("b", TokenData.mk "y" (some "r") (-5))],
        (0 : Int) < p.2.expiresAt) →
      loadTokensFromDisk 0 (saveTokensToDisk
          [("a", TokenData.mk "x" none 10), ("b", TokenData.mk "y" (some "r") (-5))]) =
        [("a", TokenData.mk "x" none 10), ("b", TokenData.mk "y" (some "r") (-5))]) :=
  persistence_roundtrip 0
    [("a", TokenData.mk "x" none 10), ("b", TokenData.mk "y" (some "r") (-5))]
    (by decide)

end PKCEProxy
